import Mathlib

/-!
Shallow embedding of the reversible-operation history engine of the
DesignPatterns repository, and proofs of the spec's claims about it.

Two implementations are embedded:

* `Memento001` — the snapshot-based Originator/Caretaker of
  `src/memento/ex001.py` (the nested-class variant `src/memento/ex002.py`
  has identical behaviour, so one embedding covers both).
* `Command003` — the delta-style command history of `src/command/ex003.py`
  (Editor/Command/CommandHistory/Application).

Python's `list.append` / `list.pop()` work at the END of a list; every
stack here is represented most-recent-FIRST, so an append in the source is
a cons here and a `pop()` is a head/tail split.  Printing is dropped.
Python exceptions are modelled with `Except`; a bare `try/except` that
swallows the error becomes a total function.
-/

namespace Memento001

/-- `Snapshot` of ex001 (the concrete `Memento`): an immutable state copy
plus the creation-date metadata.  `datetime.now()` is external input, so
the date string is passed in by callers that create snapshots. -/
structure Snapshot where
  state : String
  date  : String
deriving Repr, DecidableEq

/-- The `Originator` of ex001: `_state` (class default `None`, hence
`Option String`) and the `restored` list appended to by `restore` and
popped by `Caretaker.redo` (most-recent-first here). -/
structure Originator where
  state    : Option String
  restored : List Snapshot
deriving Repr, DecidableEq

/-- `Originator.do_something`: sets `_state` to a freshly generated random
string; the new value is a parameter of the embedding. -/
def Originator.doSomething (v : String) (o : Originator) : Originator :=
  { o with state := some v }

/-- `Originator.save`: raises `AttributeError` when `_state is None`,
otherwise returns `Snapshot(self._state)` stamped with the current date. -/
def Originator.save (o : Originator) (now : String) : Except Unit Snapshot :=
  match o.state with
  | none => .error ()
  | some s => .ok ⟨s, now⟩

/-- `Originator.restore`: `_state = memento.state` and
`self.restored.append(memento)`. -/
def Originator.restore (o : Originator) (m : Snapshot) : Originator :=
  { state := some m.state, restored := m :: o.restored }

/-- Combined state of a `Caretaker` and its `Originator`:
`_history` is the caretaker's memento stack (most-recent-first). -/
structure CState where
  orig    : Originator
  history : List Snapshot
deriving Repr, DecidableEq

/-- `Caretaker.backup`: `m = originator.save()` (its `AttributeError`
propagates — there is no handler) then `self._history.append(m)`. -/
def backup (now : String) (c : CState) : Except Unit CState := do
  let m ← c.orig.save now
  .ok { c with history := m :: c.history }

/-- `Caretaker.undo`: early return on empty history; otherwise pop the
most recent memento and `originator.restore` it.  (In the source the body
sits in a `try/except`, but `pop` is guarded by the emptiness check and
`restore` never raises, so the handler is dead code here; the variant with
a raising subject is `undoTry` below.) -/
def undo (c : CState) : CState :=
  match c.history with
  | [] => c
  | m :: h => { orig := c.orig.restore m, history := h }

/-- `Caretaker.redo`: `originator.restored.pop()` (an `IndexError` on an
empty list is caught and printed as `Cannot redo`, i.e. a no-op) and
`self._history.append(snapshot)`.  The originator's `_state` is not
touched. -/
def redo (c : CState) : CState :=
  match c.orig.restored with
  | [] => c
  | m :: rs => { orig := { c.orig with restored := rs }, history := m :: c.history }

/-- `Caretaker.undo` against a subject whose `restore` may raise: the
source wraps the popped-memento restore in `try/except Exception` that
prints `Cannot undo`, so a restore error never escapes; the popped entry
stays popped and (for a restore that raises before mutating) the
originator is left as it was. -/
def undoTry (restore : Originator → Snapshot → Except String Originator)
    (c : CState) : Except String CState :=
  match c.history with
  | [] => .ok c
  | m :: h =>
    match restore c.orig m with
    | .ok o' => .ok { orig := o', history := h }
    | .error _ => .ok { orig := c.orig, history := h }

/-- One recorded mutation of the ex001 demo loop: `caretaker.backup()`
followed by `originator.do_something()`; `ms` lists the (date, new value)
pair of each mutation in chronological order. -/
def runE (c : CState) : List (String × String) → Except Unit CState
  | [] => .ok c
  | (d, v) :: ms => do
    let c' ← backup d c
    runE { c' with orig := c'.orig.doSomething v } ms

/-- Chronological list of pre-mutation states of a run: the state each
`backup` captures, starting from state `s`. -/
def pres (s : String) : List (String × String) → List String
  | [] => []
  | (_, v) :: ms => s :: pres v ms

/-- The snapshot stack (most-recent-first) pushed by a run starting from
state `s`. -/
def snaps (s : String) : List (String × String) → List Snapshot
  | [] => []
  | (d, v) :: ms => snaps v ms ++ [⟨s, d⟩]

/-- Final state value of a run starting from state `s`. -/
def lastVal (s : String) : List (String × String) → String
  | [] => s
  | (_, v) :: ms => lastVal v ms

end Memento001

namespace Command003

/-- The four concrete command classes of ex003. -/
inductive CKind
  | copy
  | cut
  | paste
  | undoCommand
deriving Repr, DecidableEq

/-- A `Command` object: its class plus the `backup` field, `None` until
`save_backup` runs. -/
structure Cmd where
  kind   : CKind
  backup : Option String
deriving Repr, DecidableEq

/-- The `Editor` (receiver).  `text` starts as `""`; it is `Option String`
because `Command.undo` assigns `editor.text = self.backup` and `backup`
may be `None`. -/
structure Editor where
  text : Option String
deriving Repr, DecidableEq

/-- `Editor.get_selection`: the stub always returns `"selected text"`. -/
def Editor.get_selection (_ : Editor) : String := "selected text"

/-- `Editor.delete_selection`: `text.replace("selected text", "")`; on a
`None` text Python would raise `AttributeError`. -/
def Editor.delete_selection (e : Editor) : Except Unit Editor :=
  match e.text with
  | none => .error ()
  | some t => .ok ⟨some (t.replace "selected text" "")⟩

/-- `Editor.replace_selection`: `text += s`; on a `None` text Python would
raise `TypeError`. -/
def Editor.replace_selection (e : Editor) (s : String) : Except Unit Editor :=
  match e.text with
  | none => .error ()
  | some t => .ok ⟨some (t ++ s)⟩

/-- The `Application` plus its collaborators: the clipboard, the single
active editor (`editors[0]`), and `CommandHistory.history`
(most-recent-first). -/
structure App where
  clipboard : String
  editor    : Editor
  history   : List Cmd
deriving Repr, DecidableEq

/-- `Command.save_backup`: `self.backup = self.editor.text`. -/
def Cmd.save_backup (c : Cmd) (e : Editor) : Cmd :=
  { c with backup := e.text }

/-- `Command.undo`: `self.editor.text = self.backup`. -/
def Cmd.undoCmd (c : Cmd) (a : App) : App :=
  { a with editor := ⟨c.backup⟩ }

/-- `Application.undo`: `command = history.pop()` (`None` on an empty
stack) and, when a command came back, `command.undo()`. -/
def App.undo (a : App) : App :=
  match a.history with
  | [] => a
  | c :: h => c.undoCmd { a with history := h }

/-- `execute` of the four command classes, returning the (possibly
backed-up) command object, the new application state, and the Bool the
method returns.
* `CopyCommand`: `clipboard = get_selection()`; returns `False`.
* `CutCommand`: `save_backup()`, `clipboard = get_selection()`,
  `delete_selection()`; returns `True`.
* `PasteCommand`: `save_backup()`, `replace_selection(clipboard)`;
  returns `True`.
* `UndoCommand`: `app.undo()`; returns `False`. -/
def Cmd.execute (c : Cmd) (a : App) : Except Unit (Cmd × App × Bool) :=
  match c.kind with
  | .copy => .ok (c, { a with clipboard := a.editor.get_selection }, false)
  | .cut => do
    let c' := c.save_backup a.editor
    let a' := { a with clipboard := a.editor.get_selection }
    let e' ← a'.editor.delete_selection
    .ok (c', { a' with editor := e' }, true)
  | .paste => do
    let c' := c.save_backup a.editor
    let e' ← a.editor.replace_selection a.clipboard
    .ok (c', { a with editor := e' }, true)
  | .undoCommand => .ok (c, a.undo, false)

/-- `Application.execute_command`: run the command and push it onto the
history exactly when `execute` returned `True`. -/
def App.execute_command (a : App) (c : Cmd) : Except Unit App := do
  let (c', a', b) ← c.execute a
  if b then .ok { a' with history := c' :: a'.history } else .ok a'

/-- One user-interface event, as wired up in `create_ui`: each button
press builds a FRESH command object (`backup = None`) and feeds it to
`execute_command`; `appUndo` is a direct `Application.undo` call. -/
inductive UIStep
  | copy
  | cut
  | paste
  | undoCommand
  | appUndo
deriving Repr, DecidableEq

/-- Run one UI event against the application. -/
def step (a : App) : UIStep → Except Unit App
  | .copy => a.execute_command ⟨.copy, none⟩
  | .cut => a.execute_command ⟨.cut, none⟩
  | .paste => a.execute_command ⟨.paste, none⟩
  | .undoCommand => a.execute_command ⟨.undoCommand, none⟩
  | .appUndo => .ok a.undo

/-- Run a sequence of UI events. -/
def runApp (a : App) : List UIStep → Except Unit App
  | [] => .ok a
  | s :: ss => do
    let a' ← step a s
    runApp a' ss

/-- `Application.__init__`: empty clipboard, one editor with `text = ""`,
empty history. -/
def freshApp : App := ⟨"", ⟨some ""⟩, []⟩

/-- The safety invariant of claim C10: the editor's text is an actual
string (never `None`), and every command on the history stack has a
saved (non-`None`) backup. -/
def Good (a : App) : Prop :=
  a.editor.text ≠ none ∧ ∀ c ∈ a.history, c.backup ≠ none

end Command003

/-! ### Helper lemmas -/

namespace Memento001

theorem pres_length (s : String) (ms : List (String × String)) :
    (pres s ms).length = ms.length := by
  induction ms generalizing s with
  | nil => rfl
  | cons m ms ih => cases m with | mk d v => simp [pres, ih]

theorem snaps_length (s : String) (ms : List (String × String)) :
    (snaps s ms).length = ms.length := by
  induction ms generalizing s with
  | nil => rfl
  | cons m ms ih => cases m with | mk d v => simp [snaps, ih]

theorem snaps_map_state (s : String) (ms : List (String × String)) :
    (snaps s ms).map Snapshot.state = (pres s ms).reverse := by
  induction ms generalizing s with
  | nil => rfl
  | cons m ms ih => cases m with | mk d v => simp [snaps, pres, ih]

theorem runE_ok (ms : List (String × String)) :
    ∀ (s : String) (rs : List Snapshot) (h : List Snapshot),
      runE ⟨⟨some s, rs⟩, h⟩ ms = .ok ⟨⟨some (lastVal s ms), rs⟩, snaps s ms ++ h⟩ := by
  induction ms with
  | nil => intro s rs h; rfl
  | cons m ms ih =>
    cases m with | mk d v =>
    intro s rs h
    have hstep : runE ⟨⟨some s, rs⟩, h⟩ ((d, v) :: ms)
        = runE ⟨⟨some v, rs⟩, ⟨s, d⟩ :: h⟩ ms := rfl
    rw [hstep, ih v rs (⟨s, d⟩ :: h)]
    simp [snaps, lastVal]

theorem undo_iter_get (i : ℕ) :
    ∀ (S : List Snapshot) (o : Originator) (h : List Snapshot) (hi : i < S.length),
      (undo^[i + 1] ⟨o, S ++ h⟩).orig.state = some (S.get ⟨i, hi⟩).state := by
  induction i with
  | zero =>
    intro S o h hi
    match S with
    | m :: S' =>
      simp [undo, Originator.restore]
  | succ i ih =>
    intro S o h hi
    match S with
    | m :: S' =>
      have hs : undo ⟨o, (m :: S') ++ h⟩ = ⟨o.restore m, S' ++ h⟩ := rfl
      have hi' : i < S'.length := by simpa using hi
      calc (undo^[i + 1 + 1] ⟨o, (m :: S') ++ h⟩).orig.state
          = (undo^[i + 1] (undo ⟨o, (m :: S') ++ h⟩)).orig.state := by
            rw [Function.iterate_succ_apply]
        _ = some (S'.get ⟨i, hi'⟩).state := by rw [hs]; exact ih S' (o.restore m) h hi'
        _ = some ((m :: S').get ⟨i + 1, hi⟩).state := rfl

theorem reverse_last (l : List String) (h : l ≠ []) :
    l.reverse.get? (l.length - 1) = l.head? := by
  have hl : 0 < l.length := List.length_pos.mpr h
  have h1 : l.length - 1 < l.reverse.length := by simp; omega
  rw [List.get?_eq_getElem?, List.getElem?_eq_getElem h1, List.getElem_reverse]
  cases l with
  | nil => simp at h
  | cons a as => simp

theorem pres_reverse_last (s : String) (ms : List (String × String)) (h : ms ≠ []) :
    (pres s ms).reverse.get? (ms.length - 1) = some s := by
  have hne : pres s ms ≠ [] := by
    intro he
    have := pres_length s ms
    rw [he] at this
    cases ms with
    | nil => exact h rfl
    | cons m ms' => simp at this
  rw [← pres_length s ms, reverse_last _ hne]
  cases ms with
  | nil => exact absurd rfl h
  | cons m ms' => cases m with | mk d v => simp [pres]

end Memento001

namespace Command003

theorem replace_on_empty : "".replace "selected text" "" = "" := by
  rw [String.replace]
  rw [dif_neg (by decide)]
  show String.replace.loop "" "selected text" "" (by decide) "" 0 0 = ""
  rw [String.replace.loop.eq_def]
  rw [dif_pos (by decide)]
  rfl

theorem undo_good (a : App) (ha : Good a) : Good a.undo := by
  obtain ⟨clip, ed, hist⟩ := a
  obtain ⟨htext, hback⟩ := ha
  cases hist with
  | nil => exact ⟨htext, hback⟩
  | cons c h =>
    refine ⟨?_, ?_⟩
    · exact hback c (List.mem_cons_self c h)
    · intro c' hc'
      exact hback c' (List.mem_cons_of_mem c hc')

theorem step_good (a : App) (s : UIStep) (ha : Good a) :
    ∃ a', step a s = .ok a' ∧ Good a' := by
  obtain ⟨clip, ed, hist⟩ := a
  obtain ⟨htext, hback⟩ := ha
  obtain ⟨t, ht⟩ : ∃ t, ed.text = some t := by
    cases hed : ed.text with
    | none => exact absurd hed htext
    | some t => exact ⟨t, rfl⟩
  obtain ⟨⟩ := ed
  cases ht
  cases s with
  | copy =>
    refine ⟨⟨"selected text", ⟨some t⟩, hist⟩, rfl, by simp [Good], ?_⟩
    intro c hc
    exact hback c hc
  | cut =>
    refine ⟨⟨"selected text", ⟨some (t.replace "selected text" "")⟩,
      ⟨.cut, some t⟩ :: hist⟩, rfl, by simp [Good], ?_⟩
    intro c hc
    rcases List.mem_cons.mp hc with h | h
    · rw [h]; simp
    · exact hback c h
  | paste =>
    refine ⟨⟨clip, ⟨some (t ++ clip)⟩, ⟨.paste, some t⟩ :: hist⟩, rfl,
      by simp [Good], ?_⟩
    intro c hc
    rcases List.mem_cons.mp hc with h | h
    · rw [h]; simp
    · exact hback c h
  | undoCommand =>
    refine ⟨App.undo ⟨clip, ⟨some t⟩, hist⟩, rfl, ?_⟩
    exact undo_good _ ⟨htext, hback⟩
  | appUndo =>
    refine ⟨App.undo ⟨clip, ⟨some t⟩, hist⟩, rfl, ?_⟩
    exact undo_good _ ⟨htext, hback⟩

theorem runApp_good (ss : List UIStep) :
    ∀ (a : App), Good a → ∃ a', runApp a ss = .ok a' ∧ Good a' := by
  induction ss with
  | nil => intro a ha; exact ⟨a, rfl, ha⟩
  | cons s ss ih =>
    intro a ha
    obtain ⟨a1, hs, ha1⟩ := step_good a s ha
    obtain ⟨a2, hr, ha2⟩ := ih a1 ha1
    refine ⟨a2, ?_, ha2⟩
    rw [runApp, hs]
    exact hr

end Command003

/-! ### The claims -/

open Memento001 Command003

/-- C1: LIFO undo order.  Running any sequence of N recorded mutations
(each a `backup` capturing the pre-mutation state followed by the
mutation) succeeds and pushes the chronological pre-states; the (i+1)-st
of N `undo` calls then puts the subject in the pre-state of mutation
N−i, i.e. the pre-states are visited most-recent-first, and after N
`undo` calls the state is back to the pre-m1 value. -/
theorem lifo_undo_order_c1 (s0 : String) (rs h : List Snapshot)
    (ms : List (String × String)) :
    runE ⟨⟨some s0, rs⟩, h⟩ ms
      = .ok ⟨⟨some (lastVal s0 ms), rs⟩, snaps s0 ms ++ h⟩ ∧
    (∀ i, i < ms.length →
      (Memento001.undo^[i + 1]
          (⟨⟨some (lastVal s0 ms), rs⟩, snaps s0 ms ++ h⟩ : CState)).orig.state
        = (pres s0 ms).reverse.get? i) ∧
    (ms ≠ [] →
      (Memento001.undo^[ms.length]
          (⟨⟨some (lastVal s0 ms), rs⟩, snaps s0 ms ++ h⟩ : CState)).orig.state
        = some s0) := by
  have key : ∀ i, i < ms.length →
      (Memento001.undo^[i + 1]
          (⟨⟨some (lastVal s0 ms), rs⟩, snaps s0 ms ++ h⟩ : CState)).orig.state
        = (pres s0 ms).reverse.get? i := by
    intro i hi
    have hiS : i < (snaps s0 ms).length := by rw [snaps_length]; exact hi
    rw [undo_iter_get i (snaps s0 ms) ⟨some (lastVal s0 ms), rs⟩ h hiS]
    rw [← snaps_map_state s0 ms]
    rw [List.get?_eq_getElem?, List.getElem?_map, List.getElem?_eq_getElem hiS]
    rfl
  refine ⟨runE_ok ms s0 rs h, key, ?_⟩
  intro hne
  have hlen : 0 < ms.length := List.length_pos.mpr hne
  have h2 := key (ms.length - 1) (by omega)
  rw [show ms.length - 1 + 1 = ms.length from by omega] at h2
  rw [h2, pres_reverse_last s0 ms hne]

/-- Witness for C1 at the two-mutation run `"A" → "B" → "C"`: two undos
bring the state back to `"A"`. -/
theorem lifo_undo_order_c1_witness :
    (Memento001.undo^[2]
        (⟨⟨some "C", []⟩, [⟨"B", "d2"⟩, ⟨"A", "d1"⟩]⟩ : CState)).orig.state
      = some "A" :=
  (lifo_undo_order_c1 "A" [] [] [("d1", "B"), ("d2", "C")]).2.2 (by decide)

/-- C2 (recorded code behaviour at the failing input): record `"A" → "B"`,
undo (the undone snapshot lands in `restored`), then record a new
mutation `"A" → "C"`.  `backup` does NOT clear the `restored` list, and
`redo` then pops the stale snapshot and pushes it back onto the history,
so the previously undone entry is still reachable — the code violates
the claimed redo-invalidation invariant. -/
theorem redo_invalidation_codebug_c2 :
    runE ⟨⟨some "A", []⟩, []⟩ [("d1", "B")] = .ok ⟨⟨some "B", []⟩, [⟨"A", "d1"⟩]⟩ ∧
    Memento001.undo ⟨⟨some "B", []⟩, [⟨"A", "d1"⟩]⟩
      = ⟨⟨some "A", [⟨"A", "d1"⟩]⟩, []⟩ ∧
    backup "d2" ⟨⟨some "A", [⟨"A", "d1"⟩]⟩, []⟩
      = .ok ⟨⟨some "A", [⟨"A", "d1"⟩]⟩, [⟨"A", "d2"⟩]⟩ ∧
    Originator.doSomething "C" ⟨some "A", [⟨"A", "d1"⟩]⟩
      = ⟨some "C", [⟨"A", "d1"⟩]⟩ ∧
    (⟨some "C", [⟨"A", "d1"⟩]⟩ : Originator).restored ≠ [] ∧
    redo ⟨⟨some "C", [⟨"A", "d1"⟩]⟩, [⟨"A", "d2"⟩]⟩
      = ⟨⟨some "C", []⟩, [⟨"A", "d1"⟩, ⟨"A", "d2"⟩]⟩ :=
  ⟨rfl, rfl, rfl, rfl, by decide, rfl⟩

/-- C3 (recorded code behaviour at the failing input): record the single
mutation `"X" → "Y"`, undo, then redo.  `redo` moves the snapshot back to
the history but never re-applies a state, so the subject stays at `"X"`
instead of returning to the post-mutation state `"Y"`. -/
theorem redo_roundtrip_codebug_c3 :
    runE ⟨⟨some "X", []⟩, []⟩ [("d", "Y")] = .ok ⟨⟨some "Y", []⟩, [⟨"X", "d"⟩]⟩ ∧
    Memento001.undo ⟨⟨some "Y", []⟩, [⟨"X", "d"⟩]⟩
      = ⟨⟨some "X", [⟨"X", "d"⟩]⟩, []⟩ ∧
    redo ⟨⟨some "X", [⟨"X", "d"⟩]⟩, []⟩ = ⟨⟨some "X", []⟩, [⟨"X", "d"⟩]⟩ ∧
    (⟨⟨some "X", []⟩, [⟨"X", "d"⟩]⟩ : CState).orig.state ≠ some "Y" :=
  ⟨rfl, rfl, rfl, by decide⟩

/-- C4: `Caretaker.redo` never changes the originator's live `_state`;
when the `restored` list is non-empty it only moves its most recent
snapshot onto the caretaker's history. -/
theorem redo_state_frame_c4 (c : CState) :
    (redo c).orig.state = c.orig.state ∧
    ∀ m rs, c.orig.restored = m :: rs →
      redo c = ⟨⟨c.orig.state, rs⟩, m :: c.history⟩ := by
  obtain ⟨⟨st, rst⟩, hist⟩ := c
  constructor
  · cases rst <;> rfl
  · intro m rs hr
    simp only at hr
    subst hr
    rfl

/-- Witness for C4: redo on a concrete state with one restored snapshot. -/
theorem redo_state_frame_c4_witness :
    redo ⟨⟨some "C", [⟨"A", "d"⟩]⟩, []⟩ = ⟨⟨some "C", []⟩, [⟨"A", "d"⟩]⟩ :=
  (redo_state_frame_c4 ⟨⟨some "C", [⟨"A", "d"⟩]⟩, []⟩).2 ⟨"A", "d"⟩ [] rfl

/-- C5 counterexample: `UndoCommand.execute` returns `False`, yet running
it through `execute_command` pops the history stack, so an action whose
`execute` returns false does NOT always leave the stacks unchanged. -/
theorem noop_invisible_cex_c5 :
    Cmd.execute ⟨.undoCommand, none⟩ ⟨"", ⟨some ""⟩, [⟨.paste, some ""⟩]⟩
      = .ok (⟨.undoCommand, none⟩, ⟨"", ⟨some ""⟩, []⟩, false) ∧
    App.execute_command ⟨"", ⟨some ""⟩, [⟨.paste, some ""⟩]⟩ ⟨.undoCommand, none⟩
      = .ok ⟨"", ⟨some ""⟩, []⟩ ∧
    ([] : List Cmd) ≠ [⟨.paste, some ""⟩] :=
  ⟨rfl, rfl, by decide⟩

/-- C5 amended: every command whose `execute` returns false other than
`UndoCommand` — that is, `CopyCommand` — leaves the history stack and the
editor unchanged when run through `execute_command` (this dispatcher has
no redo stack at all); only the clipboard is written. -/
theorem copy_invisible_c5 (a : App) (b : Option String) :
    App.execute_command a ⟨.copy, b⟩ = .ok { a with clipboard := "selected text" } ∧
    ({ a with clipboard := "selected text" } : App).history = a.history ∧
    ({ a with clipboard := "selected text" } : App).editor = a.editor :=
  ⟨rfl, rfl, rfl⟩

/-- C6 (recorded code behaviour at the failing input): on a fresh editor
(`text = ""`, so deleting the selection changes nothing), `CutCommand`
still returns `True` and `execute_command` records it in the history,
although the editor text is unchanged (`""` before and after). -/
theorem cut_empty_codebug_c6 :
    Cmd.execute ⟨.cut, none⟩ ⟨"", ⟨some ""⟩, []⟩
      = .ok (⟨.cut, some ""⟩, ⟨"selected text", ⟨some ""⟩, []⟩, true) ∧
    App.execute_command ⟨"", ⟨some ""⟩, []⟩ ⟨.cut, none⟩
      = .ok ⟨"selected text", ⟨some ""⟩, [⟨.cut, some ""⟩]⟩ := by
  have h1 : Cmd.execute ⟨.cut, none⟩ ⟨"", ⟨some ""⟩, []⟩
      = .ok (⟨.cut, some ""⟩,
          ⟨"selected text", ⟨some ("".replace "selected text" "")⟩, []⟩, true) := rfl
  have h2 : App.execute_command ⟨"", ⟨some ""⟩, []⟩ ⟨.cut, none⟩
      = .ok ⟨"selected text", ⟨some ("".replace "selected text" "")⟩,
          [⟨.cut, some ""⟩]⟩ := rfl
  rw [replace_on_empty] at h1 h2
  exact ⟨h1, h2⟩

/-- C7: undo on an empty history, redo on an empty restored list, and
`Application.undo` on an empty command history are all no-ops, for any
number of repetitions, and none of them raises (they are total). -/
theorem empty_stack_noop_c7 (n : ℕ) :
    (∀ c : CState, c.history = [] → Memento001.undo^[n] c = c) ∧
    (∀ c : CState, c.orig.restored = [] → redo^[n] c = c) ∧
    (∀ a : App, a.history = [] → App.undo^[n] a = a) := by
  induction n with
  | zero => exact ⟨fun c _ => rfl, fun c _ => rfl, fun a _ => rfl⟩
  | succ n ih =>
    obtain ⟨ih1, ih2, ih3⟩ := ih
    refine ⟨?_, ?_, ?_⟩
    · intro c hc
      have h1 : Memento001.undo c = c := by
        obtain ⟨o, hist⟩ := c
        cases hist with
        | nil => rfl
        | cons m hh => simp at hc
      rw [Function.iterate_succ_apply, h1]
      exact ih1 c hc
    · intro c hc
      have h1 : redo c = c := by
        obtain ⟨⟨st, rst⟩, hist⟩ := c
        cases rst with
        | nil => rfl
        | cons m rs => simp at hc
      rw [Function.iterate_succ_apply, h1]
      exact ih2 c hc
    · intro a ha
      have h1 : App.undo a = a := by
        obtain ⟨clip, ed, hist⟩ := a
        cases hist with
        | nil => rfl
        | cons cmd hh => simp at ha
      rw [Function.iterate_succ_apply, h1]
      exact ih3 a ha

/-- Witness for C7: three repetitions of each empty-stack operation on
concrete states. -/
theorem empty_stack_noop_c7_witness :
    Memento001.undo^[3] (⟨⟨some "A", [⟨"B", "d"⟩]⟩, []⟩ : CState)
      = ⟨⟨some "A", [⟨"B", "d"⟩]⟩, []⟩ ∧
    redo^[3] (⟨⟨some "A", []⟩, [⟨"B", "d"⟩]⟩ : CState)
      = ⟨⟨some "A", []⟩, [⟨"B", "d"⟩]⟩ ∧
    App.undo^[3] freshApp = freshApp :=
  ⟨(empty_stack_noop_c7 3).1 _ rfl, (empty_stack_noop_c7 3).2.1 _ rfl,
   (empty_stack_noop_c7 3).2.2 _ rfl⟩

/-- C8: `Originator.save` fails (the `AttributeError` guard) exactly when
`_state` is still `None`; with an initialized state it returns a snapshot
carrying exactly the current state. -/
theorem save_error_iff_c8 (o : Originator) (now : String) :
    (o.save now = .error () ↔ o.state = none) ∧
    (∀ s, o.state = some s → o.save now = .ok ⟨s, now⟩) := by
  obtain ⟨st, rst⟩ := o
  constructor
  · constructor
    · intro h
      cases st with
      | none => rfl
      | some s => exact absurd h (by simp [Originator.save])
    · intro h
      simp only at h
      subst h
      rfl
  · intro s h
    simp only at h
    subst h
    rfl

/-- Witness for C8: save fails on an uninitialized subject and snapshots
the state `"A"` of an initialized one. -/
theorem save_error_iff_c8_witness :
    Originator.save ⟨none, []⟩ "t" = .error () ∧
    Originator.save ⟨some "A", []⟩ "t" = .ok ⟨"A", "t"⟩ :=
  ⟨(save_error_iff_c8 ⟨none, []⟩ "t").1.mpr rfl,
   (save_error_iff_c8 ⟨some "A", []⟩ "t").2 "A" rfl⟩

/-- C9 counterexample: against a subject whose `restore` raises, the
caretaker's `undo` returns normally (the `try/except` swallows the
error) instead of propagating it to the caller. -/
theorem error_swallowed_cex_c9 :
    undoTry (fun _ _ => .error "boom") ⟨⟨some "A", []⟩, [⟨"A", "d"⟩]⟩
      = .ok ⟨⟨some "A", []⟩, []⟩ ∧
    undoTry (fun _ _ => .error "boom") ⟨⟨some "A", []⟩, [⟨"A", "d"⟩]⟩
      ≠ .error "boom" := by
  refine ⟨rfl, ?_⟩
  intro h
  exact Except.noConfusion h

/-- C9 amended: a capture failure inside `backup` propagates to the
caller unchanged (there is no handler around `save`), but `undo` wraps
the restore in a catch-all handler, so a restore failure never escapes:
`undo` always returns normally. -/
theorem error_propagation_amended_c9 :
    (∀ (now : String) (c : CState), c.orig.state = none → backup now c = .error ()) ∧
    (∀ (restore : Originator → Snapshot → Except String Originator) (c : CState),
      ∃ c', undoTry restore c = .ok c') := by
  constructor
  · intro now c h
    obtain ⟨⟨st, rst⟩, hist⟩ := c
    simp only at h
    subst h
    rfl
  · intro f c
    obtain ⟨o, hist⟩ := c
    cases hist with
    | nil => exact ⟨⟨o, []⟩, rfl⟩
    | cons m hh =>
      cases hf : f o m with
      | ok o' => exact ⟨⟨o', hh⟩, by simp [undoTry, hf]⟩
      | error e => exact ⟨⟨o, hh⟩, by simp [undoTry, hf]⟩

/-- Witness for C9 amended: a concrete uninitialized subject makes
`backup` propagate the error, and a concrete raising restore is
swallowed by `undo`. -/
theorem error_propagation_amended_c9_witness :
    backup "t" ⟨⟨none, []⟩, []⟩ = .error () ∧
    ∃ c', undoTry (fun _ _ => .error "boom") ⟨⟨some "A", []⟩, [⟨"A", "d"⟩]⟩
      = .ok c' :=
  ⟨error_propagation_amended_c9.1 "t" ⟨⟨none, []⟩, []⟩ rfl,
   error_propagation_amended_c9.2 (fun _ _ => .error "boom")
     ⟨⟨some "A", []⟩, [⟨"A", "d"⟩]⟩⟩

/-- C10: from a fresh `Application`, any sequence of UI events
(`execute_command` on fresh commands and direct `undo` calls) runs
without error, keeps the editor text an actual string (never `None`), and
every command on the history stack carries a saved string backup. -/
theorem history_backup_safety_c10 (ss : List UIStep) :
    ∃ a, runApp freshApp ss = .ok a ∧
      a.editor.text ≠ none ∧ ∀ c ∈ a.history, c.backup ≠ none := by
  obtain ⟨a, hr, hg⟩ := runApp_good ss freshApp ⟨by simp [freshApp], by simp [freshApp]⟩
  unfold Good at hg
  exact ⟨a, hr, hg.1, hg.2⟩

/-- Witness for C10: a concrete event sequence (paste, cut, undo button,
direct undo, copy). -/
theorem history_backup_safety_c10_witness :
    ∃ a, runApp freshApp
        [UIStep.paste, UIStep.cut, UIStep.undoCommand, UIStep.appUndo, UIStep.copy]
      = .ok a ∧ a.editor.text ≠ none ∧ ∀ c ∈ a.history, c.backup ≠ none :=
  history_backup_safety_c10
    [UIStep.paste, UIStep.cut, UIStep.undoCommand, UIStep.appUndo, UIStep.copy]
